import Mathlib

/-!
Verification of the statistics importer of the ACWD water-usage integration
(`custom_components/acwd/statistics.py`).

The development shallowly embeds the three importer functions
(`async_import_hourly_statistics`, `async_import_quarter_hourly_statistics`,
`async_import_daily_statistics`) together with the pieces of their collaborators
that the importers rely on:

* local wall-clock datetimes are `LocalDT` values (a local calendar-day index
  plus hour/minute/second components); `dt_util.as_utc` on an aware local
  datetime becomes `as_utc`, which subtracts the timezone offset in effect for
  that local day (UTC instants are integers counting seconds);
* quantities and cumulative sums (Python floats) are modelled as rationals;
* `datetime.strptime` with the formats `"%I:%M %p"` and `"%B %d, %Y"` is
  embedded as the executable parsers `parseTime12` and `parseLongDate`,
  following CPython's `_strptime` regex semantics (1-2 digit fields with range
  checks, case-insensitive meridiem and month names, whitespace runs, full
  consumption of the input);
* timestamps read back from the recorder may be timezone-aware datetimes, raw
  numeric epoch values, or absent; `PyTime` captures the three cases together
  with Python truthiness (`0.0` and `None` are falsy), which the baseline code
  branches on;
* the external statistics store is a list of points sorted by decreasing
  timestamp; `get_last_statistics` returns the most recent `n` points and
  `async_add_external_statistics` upserts points keyed by timestamp.
-/

namespace ACWD

/-- Local wall-clock datetime: a local calendar-day index together with
hour, minute and second components (microseconds are only ever set to zero by
the importer, so seconds granularity suffices). -/
structure LocalDT where
  day : Int
  hour : Nat
  minute : Nat
  sec : Nat
deriving DecidableEq

/-- Model of `date.replace(hour=h, minute=m, second=0, microsecond=0)`. -/
def LocalDT.repl (d : LocalDT) (h m : Nat) : LocalDT :=
  ⟨d.day, h, m, 0⟩

/-- A timezone, given by the UTC offset (in seconds east of UTC) in effect on
each local calendar day; a day-indexed offset captures daylight-saving
transitions at the granularity the importer needs. -/
structure Tz where
  offsetAt : Int → Int

/-- Model of `dt_util.as_utc` applied to an aware local datetime: the absolute
instant, in seconds, obtained using the offset in effect for that local day. -/
def as_utc (tz : Tz) (d : LocalDT) : Int :=
  d.day * 86400 + (d.hour : Int) * 3600 + (d.minute : Int) * 60 + (d.sec : Int)
    - tz.offsetAt d.day

/-- A timestamp as delivered by `get_last_statistics`: Python hands back either
a timezone-aware datetime, a raw numeric epoch value, or nothing. -/
inductive PyTime where
  | none
  | aware (t : Int)
  | epoch (t : Int)
deriving DecidableEq

/-- Python truthiness of a timestamp value: `None` is falsy, an aware datetime
is always truthy, a numeric epoch value is falsy exactly when it is `0.0`. -/
def PyTime.truthy : PyTime → Bool
  | .none => false
  | .aware _ => true
  | .epoch t => t != 0

/-- Model of the guarded conversion
`if t and not isinstance(t, datetime): t = datetime.fromtimestamp(t, tz=UTC)`:
a truthy numeric epoch becomes an aware datetime, everything else is kept. -/
def PyTime.coerce : PyTime → PyTime
  | .epoch t => if t != 0 then .aware t else .epoch t
  | x => x

/-- Underlying instant of a timestamp value (zero for `None`). -/
def PyTime.val : PyTime → Int
  | .none => 0
  | .aware t => t
  | .epoch t => t

/-- One row returned by `get_last_statistics`: a `start` timestamp and the
stored cumulative `sum`. -/
structure StoredRow where
  start : PyTime
  sum : ℚ
deriving DecidableEq

/-- Model of `if stat_time and stat_time < target_date_start` as evaluated
after the guarded conversion of `stat_time`. -/
def usableBefore (t : PyTime) (d : Int) : Bool :=
  t.coerce.truthy && decide (t.coerce.val < d)

/-- The extended-lookback loop of `async_import_hourly_statistics`
(lines 87-97): scan the returned rows in order and take the first whose
timestamp is truthy and strictly before the target day start; `0` if none. -/
def findBase (rows : List StoredRow) (d : Int) : ℚ :=
  match rows with
  | [] => 0
  | r :: rest => if usableBefore r.start d then r.sum else findBase rest d

/-- Baseline resolution of `async_import_hourly_statistics` (lines 58-97):
fetch the single most recent row; use its sum when its timestamp is truthy and
strictly before the target day start, otherwise fetch up to 48 rows and scan
them for the first pre-day row; `0` when nothing qualifies. -/
def hourlyBaseline (fetch : Nat → List StoredRow) (target_date_start : Int) : ℚ :=
  match (fetch 1).head? with
  | Option.none => 0
  | Option.some r =>
      if usableBefore r.start target_date_start then r.sum
      else findBase (fetch 48) target_date_start

/-- Baseline resolution of the quarter-hourly and daily importers
(lines 170-178 and 243-251): the most recent stored sum, unconditionally. -/
def naiveBaseline (fetch : Nat → List StoredRow) : ℚ :=
  match (fetch 1).head? with
  | Option.none => 0
  | Option.some r => r.sum

/-- Longest run of ASCII digits at the head of a character list, together with
the remainder (CPython's strptime matches numeric fields greedily and then
checks length and range). -/
def takeDigits : List Char → List Char × List Char
  | [] => ([], [])
  | c :: cs =>
      if c.isDigit then
        let p := takeDigits cs
        (c :: p.1, p.2)
      else ([], c :: cs)

/-- Numeric value of a digit run. -/
def digitsToNat (ds : List Char) : Nat :=
  ds.foldl (fun a c => a * 10 + (c.toNat - 48)) 0

/-- Drop a leading run of whitespace, returning how many characters were
dropped and the remainder (a literal blank in a strptime format matches one or
more whitespace characters). -/
def skipSpaces : List Char → Nat × List Char
  | [] => (0, [])
  | c :: cs =>
      if c.isWhitespace then
        let p := skipSpaces cs
        (p.1 + 1, p.2)
      else (0, c :: cs)

/-- Case-insensitive match of `%p` against the entire remaining input:
`some true` for PM, `some false` for AM, `none` otherwise (strptime requires
the whole input to be consumed). -/
def parseMeridiem : List Char → Option Bool
  | [c1, c2] =>
      if (c1 = 'A' ∨ c1 = 'a') ∧ (c2 = 'M' ∨ c2 = 'm') then some false
      else if (c1 = 'P' ∨ c1 = 'p') ∧ (c2 = 'M' ∨ c2 = 'm') then some true
      else none
  | _ => none

/-- Conversion of a 12-hour clock value and meridiem to the 24-hour clock, as
`strptime` performs it: 12 AM is hour 0, 12 PM is hour 12. -/
def hour24 (pm : Bool) (h : Nat) : Nat :=
  if pm then (if h = 12 then 12 else h + 12) else (if h = 12 then 0 else h)

/-- Model of `datetime.strptime(s, "%I:%M %p")` followed by reading `.hour`
and `.minute`: a 1-2 digit hour in 1..12, a colon, a 1-2 digit minute in
0..59, whitespace, a meridiem, end of input. The returned hour is on the
24-hour clock (12 AM is hour 0, 12 PM is hour 12). -/
def parseTime12 (s : String) : Option (Nat × Nat) :=
  let p1 := takeDigits s.data
  if p1.1.length = 0 ∨ 2 < p1.1.length then none else
  let h := digitsToNat p1.1
  if h < 1 ∨ 12 < h then none else
  match p1.2 with
  | ':' :: r2 =>
      let p2 := takeDigits r2
      if p2.1.length = 0 ∨ 2 < p2.1.length then none else
      let m := digitsToNat p2.1
      if 59 < m then none else
      let p3 := skipSpaces p2.2
      if p3.1 = 0 then none else
      match parseMeridiem p3.2 with
      | some pm => some (hour24 pm h, m)
      | Option.none => none
  | _ => none

/-- English month names, as matched by `%B` in the C locale. -/
def monthNames : List String :=
  ["January", "February", "March", "April", "May", "June", "July",
   "August", "September", "October", "November", "December"]

/-- ASCII lowercasing of a character. -/
def lcChar (c : Char) : Char :=
  if 'A' ≤ c ∧ c ≤ 'Z' then Char.ofNat (c.toNat + 32) else c

/-- Case-insensitively strip the first list from the front of the second,
returning the remainder on success. -/
def dropCI : List Char → List Char → Option (List Char)
  | [], rest => some rest
  | _ :: _, [] => none
  | p :: ps, c :: cs => if lcChar c = lcChar p then dropCI ps cs else none

/-- Match `%B` against the head of the input: try each month name in order
(English month names are prefix-free, so the first hit is the only hit). -/
def matchMonth : Nat → List String → List Char → Option (Nat × List Char)
  | _, [], _ => none
  | i, nm :: rest, cs =>
      match dropCI nm.data cs with
      | some r => some (i, r)
      | Option.none => matchMonth (i + 1) rest cs

/-- Gregorian leap-year test, as used by `datetime`. -/
def isLeap (y : Nat) : Bool :=
  (y % 4 = 0 && y % 100 != 0) || y % 400 = 0

/-- Number of days in a month, as validated by the `datetime` constructor. -/
def daysInMonth (y m : Nat) : Nat :=
  if m = 2 then (if isLeap y then 29 else 28)
  else if m = 4 ∨ m = 6 ∨ m = 9 ∨ m = 11 then 30
  else 31

/-- Model of `datetime.strptime(s, "%B %d, %Y")` (the daily importer's
`DATE_FORMAT_LONG`): a month name, whitespace, a 1-2 digit day, a comma,
whitespace, a 4-digit year, end of input; the `datetime` constructor then
rejects year 0 and days beyond the month's length. Returns (year, month,
day). -/
def parseLongDate (s : String) : Option (Nat × Nat × Nat) :=
  match matchMonth 1 monthNames s.data with
  | Option.none => none
  | some (m, r1) =>
      let p1 := skipSpaces r1
      if p1.1 = 0 then none else
      let p2 := takeDigits p1.2
      if p2.1.length = 0 ∨ 2 < p2.1.length then none else
      let d := digitsToNat p2.1
      if d < 1 ∨ 31 < d then none else
      match p2.2 with
      | ',' :: r4 =>
          let p3 := skipSpaces r4
          if p3.1 = 0 then none else
          let p4 := takeDigits p3.2
          if p4.1.length ≠ 4 ∨ p4.2 ≠ [] then none else
          let y := digitsToNat p4.1
          if y < 1 ∨ daysInMonth y m < d then none else
          some (y, m, d)
      | _ => none

/-- Day index of a Gregorian calendar date, counted from 1970-01-01 (the
standard days-from-civil computation, used to place a parsed daily record on
the local-day axis). -/
def daysFromCivil (y m d : Nat) : Int :=
  let yy : Int := if m ≤ 2 then (y : Int) - 1 else (y : Int)
  let era : Int := Int.fdiv yy 400
  let yoe : Int := yy - era * 400
  let mp : Int := ((m : Int) + 9) % 12
  let doy : Int := Int.fdiv (153 * mp + 2) 5 + (d : Int) - 1
  let doe : Int := yoe * 365 + Int.fdiv yoe 4 - Int.fdiv yoe 100 + doy
  era * 146097 + doe - 719468

/-- One record of the hourly API payload, keeping the two keys the importer
reads: `"Hourly"` (a 12-hour time label, `record.get` default `"12:00 AM"`)
and `"UsageValue"` (`record.get` default `0`). -/
structure HourlyRecord where
  hourly : Option String
  usageValue : Option ℚ
deriving DecidableEq

/-- One record of the quarter-hourly API payload: `"Hour"`, `"Minute"` and
`"UsageValue"`, each with `record.get` default `0`. -/
structure QuarterRecord where
  hour : Option Nat
  minute : Option Nat
  usageValue : Option ℚ
deriving DecidableEq

/-- One record of the daily API payload: `"UsageDate"` (`record.get`, so
`None` when absent) and `"UsageValue"` (default `0`). -/
structure DailyRecord where
  usageDate : Option String
  usageValue : Option ℚ
deriving DecidableEq

/-- One emitted statistic point, mirroring the `StatisticData` fields the
importer fills: `start` (UTC instant), `state` (the interval's own quantity)
and `sum` (the running total). -/
structure StatisticData where
  start : Int
  state : ℚ
  sum : ℚ
deriving DecidableEq

/-- Hour bucket of one hourly record (lines 105-114): parse the label with
`"%I:%M %p"` and keep only the hour; `0` when the label cannot be parsed. -/
def bucketHourOf (r : HourlyRecord) : Nat :=
  match parseTime12 (r.hourly.getD "12:00 AM") with
  | some hm => hm.1
  | Option.none => 0

/-- Quantity of an hourly record: `record.get("UsageValue", 0)`. -/
def usageOf (r : HourlyRecord) : ℚ :=
  r.usageValue.getD 0

/-- The record loop of `async_import_hourly_statistics` (lines 99-129): walk
the records in order, accumulate `cumulative_sum`, bucket each record to its
hour on the given date (minute, second and microsecond zeroed) and convert to
UTC. -/
def hourlyPoints (tz : Tz) (date : LocalDT) :
    List HourlyRecord → ℚ → List StatisticData
  | [], _ => []
  | r :: rest, cumulative_sum =>
      let s := cumulative_sum + usageOf r
      ⟨as_utc tz (date.repl (bucketHourOf r) 0), usageOf r, s⟩
        :: hourlyPoints tz date rest s

/-- The record loop of `async_import_quarter_hourly_statistics`
(lines 180-204): hour and minute are taken directly from the record. -/
def quarterPoints (tz : Tz) (date : LocalDT) :
    List QuarterRecord → ℚ → List StatisticData
  | [], _ => []
  | r :: rest, cumulative_sum =>
      let usage_gallons := r.usageValue.getD 0
      let s := cumulative_sum + usage_gallons
      ⟨as_utc tz (date.repl (r.hour.getD 0) (r.minute.getD 0)), usage_gallons, s⟩
        :: quarterPoints tz date rest s

/-- The record loop of `async_import_daily_statistics` (lines 253-285): a
record with a missing `UsageDate`, an empty one (Python `if not date_str`), or
one `strptime` rejects is skipped entirely; otherwise the parsed date's local
midnight is converted to UTC and the quantity is accumulated. -/
def dailyPoints (tz : Tz) : List DailyRecord → ℚ → List StatisticData
  | [], _ => []
  | r :: rest, cumulative_sum =>
      match r.usageDate with
      | Option.none => dailyPoints tz rest cumulative_sum
      | some ds =>
          if ds = "" then dailyPoints tz rest cumulative_sum
          else
            match parseLongDate ds with
            | Option.none => dailyPoints tz rest cumulative_sum
            | some ymd =>
                let usage_gallons := r.usageValue.getD 0
                let s := cumulative_sum + usage_gallons
                ⟨as_utc tz ⟨daysFromCivil ymd.1 ymd.2.1 ymd.2.2, 0, 0, 0⟩,
                  usage_gallons, s⟩ :: dailyPoints tz rest s

/-- One persisted point of the external statistics store. -/
structure Entry where
  time : Int
  state : ℚ
  sum : ℚ
deriving DecidableEq

/-- External statistics store for one series: its persisted points, kept
sorted by strictly decreasing timestamp (most recent first, timestamps
unique). -/
abbrev Store := List Entry

/-- Well-formedness of a store: strictly decreasing timestamps. -/
def StoreInv (s : Store) : Prop :=
  List.Pairwise (fun a b => b.time < a.time) s

instance (s : Store) : Decidable (StoreInv s) :=
  inferInstanceAs (Decidable (List.Pairwise _ s))

/-- Modelled from the spec (§6 external statistics store): the recorder's
`get_last_statistics(hass, n, statistic_id, True, with sum)` returns the most
recent `n` persisted points, most recent first, with aware timestamps. -/
def get_last_statistics (s : Store) (n : Nat) : List StoredRow :=
  (s.take n).map fun e => ⟨PyTime.aware e.time, e.sum⟩

/-- A lookup that hands rows back verbatim; used to exercise the baseline
resolver on raw (possibly numeric-epoch) timestamps. -/
def rawFetch (rows : List StoredRow) (n : Nat) : List StoredRow :=
  rows.take n

/-- Insert one point into a store sorted by decreasing timestamp, overwriting
the point with the same timestamp if there is one. -/
def insertPt (s : Store) (p : StatisticData) : Store :=
  match s with
  | [] => [⟨p.start, p.state, p.sum⟩]
  | e :: rest =>
      if e.time < p.start then ⟨p.start, p.state, p.sum⟩ :: e :: rest
      else if e.time = p.start then ⟨p.start, p.state, p.sum⟩ :: rest
      else e :: insertPt rest p

/-- Modelled from the spec (§6 external statistics store):
`async_add_external_statistics` merges the batch into the series keyed by
timestamp — an existing timestamp is overwritten, a new one is inserted. -/
def async_add_external_statistics (s : Store) (pts : List StatisticData) : Store :=
  pts.foldl insertPt s

/-- Whole-call model of `async_import_hourly_statistics`: compute
`target_date_start` (line 56), resolve the baseline (lines 58-97), build the
points (lines 99-129); the list's emission to the store is kept separate so
that theorems can speak about the emitted batch. -/
def hourlyBatch (tz : Tz) (s : Store) (hourly_data : List HourlyRecord)
    (date : LocalDT) : List StatisticData :=
  let target_date_start := as_utc tz (date.repl 0 0)
  hourlyPoints tz date hourly_data
    (hourlyBaseline (get_last_statistics s) target_date_start)

/-- Model of `async_import_hourly_statistics` as a store transformer: upsert
the batch when it is non-empty (lines 131-136), otherwise leave the store
untouched. -/
def async_import_hourly_statistics (tz : Tz) (s : Store)
    (hourly_data : List HourlyRecord) (date : LocalDT) : Store :=
  let pts := hourlyBatch tz s hourly_data date
  if pts.isEmpty then s else async_add_external_statistics s pts

/-- Model of `async_import_quarter_hourly_statistics` as a store transformer
(lines 139-211): note the baseline is the most recent stored sum with no
day-boundary check. -/
def async_import_quarter_hourly_statistics (tz : Tz) (s : Store)
    (quarter_hourly_data : List QuarterRecord) (date : LocalDT) : Store :=
  let pts := quarterPoints tz date quarter_hourly_data
    (naiveBaseline (get_last_statistics s))
  if pts.isEmpty then s else async_add_external_statistics s pts

/-- Model of `async_import_daily_statistics` as a store transformer
(lines 214-290): same naive baseline as the quarter-hourly importer. -/
def async_import_daily_statistics (tz : Tz) (s : Store)
    (daily_data : List DailyRecord) : Store :=
  let pts := dailyPoints tz daily_data (naiveBaseline (get_last_statistics s))
  if pts.isEmpty then s else async_add_external_statistics s pts

/-- A daily record the importer drops: `UsageDate` missing, empty (Python
falsiness test), or rejected by `strptime`. -/
def dailySkipped (r : DailyRecord) : Bool :=
  match r.usageDate with
  | Option.none => true
  | some ds => ds = "" || (parseLongDate ds).isNone

/-- The one timestamp shape whose truthiness differs from its aware
counterpart: the numeric epoch value `0.0`. -/
def isZeroEpoch : PyTime → Bool
  | .epoch t => t = 0
  | _ => false

/-- Replace a raw numeric epoch timestamp by the aware datetime denoting the
same instant (what an always-converting resolver would see). -/
def awareize (r : StoredRow) : StoredRow :=
  match r.start with
  | .epoch t => ⟨.aware t, r.sum⟩
  | _ => r

/-- Left-biased choice on options. -/
def optOr : Option (ℚ × ℚ) → Option (ℚ × ℚ) → Option (ℚ × ℚ)
  | some a, _ => some a
  | Option.none, b => b

/-- Timestamp-keyed contents of a store (what a point's timestamp maps to). -/
def lookupStore : Store → Int → Option (ℚ × ℚ)
  | [], _ => Option.none
  | e :: rest, t => if e.time = t then some (e.state, e.sum) else lookupStore rest t

/-- Value the last point of a batch carrying a given timestamp assigns to it
(the upsert applies the batch left to right, so the last write wins). -/
def lastVal : List StatisticData → Int → Option (ℚ × ℚ)
  | [], _ => Option.none
  | p :: rest, t =>
      optOr (lastVal rest t) (if p.start = t then some (p.state, p.sum) else Option.none)

/-- Modelled from the spec's words (§8 baseline continuity), for comparison
with the importer's loop: readings `[q0, q1, q2]` on baseline `S` must carry
sums `[S+q0, S+q0+q1, S+q0+q1+q2]`. -/
def specRunningSums (S : ℚ) : List ℚ → List ℚ
  | [] => []
  | q :: qs => (S + q) :: specRunningSums (S + q) qs

/-- The UTC timezone (offset zero everywhere); concrete fixture. -/
def tz0 : Tz := ⟨fun _ => 0⟩

/-- Local midnight of day 0 in the fixture timezone. -/
def d0 : LocalDT := ⟨0, 0, 0, 0⟩

/-- Concrete hourly record fixture: 1 AM, 2 gallons. -/
def r1AM : HourlyRecord := ⟨some "1:00 AM", some 2⟩

/-- Concrete hourly record fixture: a half-hour label, 2 gallons. -/
def r330PM : HourlyRecord := ⟨some "3:30 PM", some 2⟩

/-- Concrete hourly record fixture: an unparseable label, 2 gallons. -/
def rBadLbl : HourlyRecord := ⟨some "not a time", some 2⟩

/-- Concrete hourly record fixture: 2 AM, 3 gallons. -/
def r2AM : HourlyRecord := ⟨some "2:00 AM", some 3⟩

/-! Basic facts about the hourly record loop. -/

theorem hourlyPoints_length (tz : Tz) (date : LocalDT) :
    ∀ (rs : List HourlyRecord) (S : ℚ),
      (hourlyPoints tz date rs S).length = rs.length
  | [], _ => rfl
  | _ :: rest, S => by
      simp [hourlyPoints, hourlyPoints_length tz date rest]

theorem hourlyPoints_map_state (tz : Tz) (date : LocalDT) :
    ∀ (rs : List HourlyRecord) (S : ℚ),
      (hourlyPoints tz date rs S).map StatisticData.state = rs.map usageOf
  | [], _ => rfl
  | r :: rest, S => by
      simp [hourlyPoints, hourlyPoints_map_state tz date rest, usageOf]

theorem hourlyPoints_map_sum (tz : Tz) (date : LocalDT) :
    ∀ (rs : List HourlyRecord) (S : ℚ),
      (hourlyPoints tz date rs S).map StatisticData.sum
        = specRunningSums S (rs.map usageOf)
  | [], _ => rfl
  | r :: rest, S => by
      simp [hourlyPoints, specRunningSums, hourlyPoints_map_sum tz date rest, usageOf]

theorem hourlyPoints_getElem? (tz : Tz) (date : LocalDT) :
    ∀ (rs : List HourlyRecord) (i : Nat) (r : HourlyRecord) (S : ℚ),
      rs[i]? = some r →
      (hourlyPoints tz date rs S)[i]? =
        some ⟨as_utc tz (date.repl (bucketHourOf r) 0), usageOf r,
          S + ((rs.take (i + 1)).map usageOf).sum⟩
  | [], i, r, S, h => by simp at h
  | x :: rest, 0, r, S, h => by
      simp only [List.getElem?_cons_zero, Option.some.injEq] at h
      subst h
      simp [hourlyPoints, usageOf]
  | x :: rest, i + 1, r, S, h => by
      simp only [List.getElem?_cons_succ] at h
      have ih := hourlyPoints_getElem? tz date rest i r (S + usageOf x) h
      simp only [hourlyPoints, List.getElem?_cons_succ]
      rw [ih]
      simp only [List.take_succ_cons, List.map_cons, List.sum_cons,
        Option.some.injEq, StatisticData.mk.injEq]
      refine ⟨trivial, trivial, by ring⟩

theorem hourlyPoints_sums_mono (tz : Tz) (date : LocalDT) :
    ∀ (rs : List HourlyRecord) (S : ℚ), (∀ r ∈ rs, 0 ≤ usageOf r) →
      ((hourlyPoints tz date rs S).map StatisticData.sum).Pairwise (· ≤ ·)
      ∧ ∀ v ∈ (hourlyPoints tz date rs S).map StatisticData.sum, S ≤ v
  | [], S, _ => by simp [hourlyPoints]
  | r :: rest, S, h => by
      have hr : 0 ≤ usageOf r := h r (by simp)
      have ih := hourlyPoints_sums_mono tz date rest (S + usageOf r)
        (fun x hx => h x (by simp [hx]))
      constructor
      · simp only [hourlyPoints, List.map_cons]
        refine List.Pairwise.cons (fun v hv => ?_) ih.1
        have := ih.2 v hv
        linarith
      · intro v hv
        simp only [hourlyPoints, List.map_cons, List.mem_cons] at hv
        rcases hv with h1 | h2
        · rw [h1]; linarith
        · have := ih.2 v h2; linarith

/-- C3: for every resolved baseline `S` and input list, the importer walks
the readings in the caller-supplied order, emitting one point per reading;
each point's `state` is the reading's own quantity and its `sum` is `S` plus
the running prefix sum of quantities up to and including that reading, so
readings `[q0, q1, q2]` carry sums `[S+q0, S+q0+q1, S+q0+q1+q2]`. -/
theorem hourly_points_follow_prefix_sums (tz : Tz) (date : LocalDT)
    (rs : List HourlyRecord) (S : ℚ) :
    (hourlyPoints tz date rs S).length = rs.length
    ∧ (hourlyPoints tz date rs S).map StatisticData.state = rs.map usageOf
    ∧ (hourlyPoints tz date rs S).map StatisticData.sum
        = specRunningSums S (rs.map usageOf) :=
  ⟨hourlyPoints_length tz date rs S, hourlyPoints_map_state tz date rs S,
    hourlyPoints_map_sum tz date rs S⟩

/-- C4: for a batch of non-negative readings and a baseline at least `0`, the
emitted `sum` sequence is non-decreasing — any point emitted later carries a
sum at least as large as any earlier one. -/
theorem hourly_sums_monotone (tz : Tz) (date : LocalDT)
    (rs : List HourlyRecord) (S : ℚ) (_hS : 0 ≤ S)
    (hq : ∀ r ∈ rs, 0 ≤ usageOf r) :
    ((hourlyPoints tz date rs S).map StatisticData.sum).Pairwise (· ≤ ·) :=
  (hourlyPoints_sums_mono tz date rs S hq).1

/-- Witness for C4 at a concrete batch. -/
theorem hourly_sums_monotone_witness :
    (0 : ℚ) ≤ 5
    ∧ (∀ r ∈ [(⟨some "1:00 AM", some 2⟩ : HourlyRecord), ⟨some "2:00 AM", some 3⟩],
        0 ≤ usageOf r)
    ∧ ((hourlyPoints tz0 d0
        [⟨some "1:00 AM", some 2⟩, ⟨some "2:00 AM", some 3⟩] 5).map
          StatisticData.sum).Pairwise (· ≤ ·) :=
  ⟨by simp, by simp [usageOf], hourly_sums_monotone tz0 d0 _ 5 (by simp)
    (by simp [usageOf])⟩

/-- C5: importing an empty reading list emits no points and performs no store
write — the store is returned unchanged, a "nothing imported" outcome rather
than an error. -/
theorem hourly_empty_input_no_write (tz : Tz) (s : Store) (date : LocalDT) :
    async_import_hourly_statistics tz s [] date = s
    ∧ hourlyBatch tz s [] date = [] := by
  constructor
  · rfl
  · rfl

/-! Time bucketing facts. -/

theorem hour24_le (pm : Bool) (h : Nat) (hh : h ≤ 12) : hour24 pm h ≤ 23 := by
  unfold hour24
  split <;> split <;> omega

theorem parseTime12_hour_le {s : String} {h m : Nat}
    (hp : parseTime12 s = some (h, m)) : h ≤ 23 := by
  simp only [parseTime12] at hp
  split at hp
  · exact absurd hp (by simp)
  · split at hp
    · exact absurd hp (by simp)
    · split at hp
      · split at hp
        · exact absurd hp (by simp)
        · split at hp
          · exact absurd hp (by simp)
          · split at hp
            · exact absurd hp (by simp)
            · split at hp
              · rename_i hrange _ _ _ _ _
                simp only [Option.some.injEq, Prod.mk.injEq] at hp
                rw [← hp.1]
                exact hour24_le _ _ (by omega)
              · exact absurd hp (by simp)
      · exact absurd hp (by simp)

theorem bucketHourOf_le (r : HourlyRecord) : bucketHourOf r ≤ 23 := by
  unfold bucketHourOf
  split
  · rename_i hm hp
    exact parseTime12_hour_le hp
  · omega

theorem bucketHourOf_unparseable {r : HourlyRecord} {lbl : String}
    (hr : r.hourly = some lbl) (hp : parseTime12 lbl = none) :
    bucketHourOf r = 0 := by
  simp [bucketHourOf, hr, hp]

/-- C6: a reading whose time label fails to parse is bucketed to hour 0,
minute 0 — local midnight of the target day — instead of raising, and every
other reading of the batch is still emitted (one point per input record). -/
theorem hourly_unparseable_label_fallback (tz : Tz) (date : LocalDT)
    (pre post : List HourlyRecord) (r : HourlyRecord) (lbl : String) (S : ℚ)
    (hr : r.hourly = some lbl) (hp : parseTime12 lbl = none) :
    (hourlyPoints tz date (pre ++ r :: post) S).length = (pre ++ r :: post).length
    ∧ ∃ p, (hourlyPoints tz date (pre ++ r :: post) S)[pre.length]? = some p
        ∧ p.start = as_utc tz (date.repl 0 0) ∧ p.state = usageOf r := by
  refine ⟨hourlyPoints_length tz date _ S, ?_⟩
  have hidx : (pre ++ r :: post)[pre.length]? = some r := by
    rw [List.getElem?_append_right (Nat.le_refl _)]
    simp
  have hmain := hourlyPoints_getElem? tz date (pre ++ r :: post) pre.length r S hidx
  refine ⟨_, hmain, ?_, rfl⟩
  simp [bucketHourOf_unparseable hr hp]

/-- Witness for C6 at a concrete batch with the unparseable label
`"not a time"` placed between two well-formed readings. -/
theorem hourly_unparseable_label_fallback_witness :
    rBadLbl.hourly = some "not a time"
    ∧ parseTime12 "not a time" = none
    ∧ ((hourlyPoints tz0 d0 ([r1AM] ++ rBadLbl :: [r2AM]) 0).length
        = ([r1AM] ++ rBadLbl :: [r2AM]).length
      ∧ ∃ p, (hourlyPoints tz0 d0 ([r1AM] ++ rBadLbl :: [r2AM])
            0)[([r1AM] : List HourlyRecord).length]? = some p
          ∧ p.start = as_utc tz0 (d0.repl 0 0)
          ∧ p.state = usageOf rBadLbl) := by
  refine ⟨rfl, by decide, ?_⟩
  exact hourly_unparseable_label_fallback tz0 d0 [r1AM] [r2AM] rBadLbl
    "not a time" 0 rfl (by decide)

/-- C8: each emitted timestamp is local midnight of the given date with the
record's bucketed hour substituted, converted to UTC with the offset in
effect for that local day; in a UTC-8 zone local midnight lands 8 hours later
in UTC, in a UTC-5 zone 5 hours later. -/
theorem hourly_timezone_conversion (tz : Tz) (date : LocalDT)
    (rs : List HourlyRecord) (S : ℚ) (i : Nat) (r : HourlyRecord)
    (p : StatisticData) (h1 : rs[i]? = some r)
    (h2 : (hourlyPoints tz date rs S)[i]? = some p) :
    p.start = as_utc tz (date.repl (bucketHourOf r) 0)
    ∧ p.start = date.day * 86400 + (bucketHourOf r : Int) * 3600
        - tz.offsetAt date.day
    ∧ (∀ d : Int, as_utc ⟨fun _ => -(8 * 3600)⟩ ⟨d, 0, 0, 0⟩ = d * 86400 + 8 * 3600)
    ∧ (∀ d : Int, as_utc ⟨fun _ => -(5 * 3600)⟩ ⟨d, 0, 0, 0⟩ = d * 86400 + 5 * 3600) := by
  rw [hourlyPoints_getElem? tz date rs i r S h1] at h2
  have hps : p.start = as_utc tz (date.repl (bucketHourOf r) 0) := by
    cases h2
    rfl
  refine ⟨hps, ?_, ?_, ?_⟩
  · rw [hps]
    simp only [as_utc, LocalDT.repl]
    push_cast
    ring
  · intro d
    simp only [as_utc]
    push_cast
    ring
  · intro d
    simp only [as_utc]
    push_cast
    ring

/-- Witness for C8 at a concrete record. -/
theorem hourly_timezone_conversion_witness :
    ([r1AM][0]? = some r1AM)
    ∧ ((hourlyPoints tz0 d0 [r1AM] 0)[0]?
        = some ⟨as_utc tz0 (d0.repl (bucketHourOf r1AM) 0), usageOf r1AM,
            0 + usageOf r1AM⟩)
    ∧ ((⟨as_utc tz0 (d0.repl (bucketHourOf r1AM) 0), usageOf r1AM,
          0 + usageOf r1AM⟩ : StatisticData).start
        = as_utc tz0 (d0.repl (bucketHourOf r1AM) 0)
      ∧ (⟨as_utc tz0 (d0.repl (bucketHourOf r1AM) 0), usageOf r1AM,
          0 + usageOf r1AM⟩ : StatisticData).start
        = d0.day * 86400 + (bucketHourOf r1AM : Int) * 3600 - tz0.offsetAt d0.day
      ∧ (∀ d : Int, as_utc ⟨fun _ => -(8 * 3600)⟩ ⟨d, 0, 0, 0⟩ = d * 86400 + 8 * 3600)
      ∧ (∀ d : Int, as_utc ⟨fun _ => -(5 * 3600)⟩ ⟨d, 0, 0, 0⟩ = d * 86400 + 5 * 3600)) := by
  refine ⟨rfl, rfl, ?_⟩
  exact hourly_timezone_conversion tz0 d0 [r1AM] 0 0 r1AM
    ⟨as_utc tz0 (d0.repl (bucketHourOf r1AM) 0), usageOf r1AM, 0 + usageOf r1AM⟩
    rfl rfl

/-- C10: every point the hourly importer emits sits exactly on an hour — the
local datetime it serializes has some hour at most 23 and minute and second
components zero; the parsed minutes of a label such as `"3:30 PM"` are
discarded (hour 15), and a record with no `"Hourly"` key defaults to
`"12:00 AM"`, hour 0. -/
theorem hourly_points_on_the_hour (tz : Tz) (date : LocalDT)
    (rs : List HourlyRecord) (S : ℚ) (i : Nat) (r : HourlyRecord)
    (p : StatisticData) (q : Option ℚ) (h1 : rs[i]? = some r)
    (h2 : (hourlyPoints tz date rs S)[i]? = some p) :
    (∃ h : Nat, h ≤ 23 ∧ p.start = as_utc tz ⟨date.day, h, 0, 0⟩)
    ∧ bucketHourOf ⟨some "3:30 PM", q⟩ = 15
    ∧ bucketHourOf ⟨Option.none, q⟩ = 0 := by
  rw [hourlyPoints_getElem? tz date rs i r S h1] at h2
  have hps : p.start = as_utc tz (date.repl (bucketHourOf r) 0) := by
    cases h2
    rfl
  refine ⟨⟨bucketHourOf r, bucketHourOf_le r, hps⟩, ?_, ?_⟩
  · simp [bucketHourOf, show parseTime12 "3:30 PM" = some (15, 30) from by decide]
  · simp [bucketHourOf, show parseTime12 "12:00 AM" = some (0, 0) from by decide]

/-- Witness for C10 at a concrete record. -/
theorem hourly_points_on_the_hour_witness :
    ([r330PM][0]? = some r330PM)
    ∧ ((hourlyPoints tz0 d0 [r330PM] 0)[0]?
        = some ⟨as_utc tz0 (d0.repl (bucketHourOf r330PM) 0), usageOf r330PM,
            0 + usageOf r330PM⟩)
    ∧ ((∃ h : Nat, h ≤ 23
          ∧ (⟨as_utc tz0 (d0.repl (bucketHourOf r330PM) 0), usageOf r330PM,
              0 + usageOf r330PM⟩ : StatisticData).start
            = as_utc tz0 ⟨d0.day, h, 0, 0⟩)
      ∧ bucketHourOf ⟨some "3:30 PM", some (7 : ℚ)⟩ = 15
      ∧ bucketHourOf ⟨Option.none, some (7 : ℚ)⟩ = 0) := by
  refine ⟨rfl, rfl, ?_⟩
  exact hourly_points_on_the_hour tz0 d0 [r330PM] 0 0 r330PM
    ⟨as_utc tz0 (d0.repl (bucketHourOf r330PM) 0), usageOf r330PM,
      0 + usageOf r330PM⟩ (some 7) rfl rfl

/-! Daily importer: dropped records. -/

theorem dailyPoints_skip_cons (tz : Tz) (r : DailyRecord)
    (h : dailySkipped r = true) (rest : List DailyRecord) (acc : ℚ) :
    dailyPoints tz (r :: rest) acc = dailyPoints tz rest acc := by
  obtain ⟨ud, uv⟩ := r
  cases ud with
  | none => rfl
  | some ds =>
      simp only [dailySkipped, Bool.or_eq_true, decide_eq_true_eq,
        Option.isNone_iff_eq_none] at h
      conv_lhs => rw [dailyPoints.eq_def]
      rcases h with h1 | h2
      · simp [h1]
      · by_cases hds : ds = ""
        · simp [hds]
        · simp [hds, h2]

/-- C9: a daily record whose `UsageDate` is missing, empty, or rejected by
`strptime` is skipped entirely — it emits no point and its quantity never
enters the cumulative sum — while the rest of the batch imports exactly as if
the record were absent. -/
theorem daily_unparseable_date_skipped (tz : Tz) (r : DailyRecord)
    (h : dailySkipped r = true) (pre post : List DailyRecord) (acc : ℚ) :
    dailyPoints tz (pre ++ r :: post) acc = dailyPoints tz (pre ++ post) acc := by
  induction pre generalizing acc with
  | nil => simpa using dailyPoints_skip_cons tz r h post acc
  | cons x pre ih =>
      obtain ⟨ud, uv⟩ := x
      simp only [List.cons_append]
      conv_lhs => rw [dailyPoints.eq_def]
      conv_rhs => rw [dailyPoints.eq_def]
      cases ud with
      | none => exact ih acc
      | some ds =>
          by_cases hds : ds = ""
          · simp [hds, ih]
          · cases hp : parseLongDate ds with
            | none => simp [hds, hp, ih]
            | some ymd => simp [hds, hp, ih]

/-- Witness for C9: an unparseable `UsageDate` between two well-formed daily
records. -/
theorem daily_unparseable_date_skipped_witness :
    dailySkipped ⟨some "Foo 3, 2025", some 7⟩ = true
    ∧ dailyPoints tz0
        ([⟨some "December 3, 2025", some 1⟩]
          ++ (⟨some "Foo 3, 2025", some 7⟩ : DailyRecord)
          :: [⟨some "December 4, 2025", some 2⟩]) 0
      = dailyPoints tz0
        ([⟨some "December 3, 2025", some 1⟩]
          ++ [⟨some "December 4, 2025", some 2⟩]) 0 := by
  refine ⟨by decide, ?_⟩
  exact daily_unparseable_date_skipped tz0 ⟨some "Foo 3, 2025", some 7⟩ (by decide)
    [⟨some "December 3, 2025", some 1⟩] [⟨some "December 4, 2025", some 2⟩] 0

/-! Timestamp normalization in the baseline resolver. -/

theorem awareize_sum (r : StoredRow) : (awareize r).sum = r.sum := by
  unfold awareize
  cases hs : r.start <;> simp [hs]

theorem usableBefore_awareize {r : StoredRow} (h : isZeroEpoch r.start = false)
    (d : Int) : usableBefore (awareize r).start d = usableBefore r.start d := by
  unfold awareize
  cases hs : r.start with
  | none => simp [hs]
  | aware t => simp [hs]
  | epoch t =>
      rw [hs] at h
      unfold isZeroEpoch at h
      simp only [decide_eq_false_iff_not] at h
      simp [hs, usableBefore, PyTime.coerce, PyTime.truthy, PyTime.val, h]

theorem findBase_awareize (d : Int) :
    ∀ (rows : List StoredRow), (∀ r ∈ rows, isZeroEpoch r.start = false) →
      findBase (rows.map awareize) d = findBase rows d
  | [], _ => rfl
  | r :: rest, h => by
      simp only [List.map_cons, findBase]
      rw [usableBefore_awareize (h r (by simp)) d, awareize_sum]
      by_cases hb : usableBefore r.start d
      · simp [hb]
      · simp [hb, findBase_awareize d rest (fun x hx => h x (by simp [hx]))]

/-- C7 counterexample: the most recent stored point carries the raw numeric
epoch timestamp `0.0` (falsy in Python), so the guarded conversion is
skipped and the point is not usable as a baseline, while the aware datetime
denoting the very same instant would have been — the computed baselines
differ (0 versus 5 with day start 1). -/
theorem epoch_zero_baseline_counterexample :
    hourlyBaseline (rawFetch [⟨PyTime.epoch 0, 5⟩]) 1
      ≠ hourlyBaseline (rawFetch [⟨PyTime.aware 0, 5⟩]) 1 := by
  norm_num [hourlyBaseline, rawFetch, usableBefore, PyTime.coerce, PyTime.truthy,
    PyTime.val, findBase]

/-- C7 (amended): for stored points whose raw numeric epoch timestamps are
non-zero (every epoch value except `0.0`, which Python treats as falsy and
skips), the resolver's guarded conversion normalizes them to aware UTC
datetimes before any comparison, so the computed baseline is the same as if
all timestamps had arrived as aware datetimes. -/
theorem epoch_timestamps_normalized (rows : List StoredRow) (d : Int)
    (h : ∀ r ∈ rows, isZeroEpoch r.start = false) :
    hourlyBaseline (rawFetch rows) d
      = hourlyBaseline (rawFetch (rows.map awareize)) d := by
  cases rows with
  | nil => rfl
  | cons r rest =>
      have hr0 : isZeroEpoch r.start = false := h r (by simp)
      simp only [hourlyBaseline, rawFetch, List.map_cons, List.take_succ_cons,
        List.take_zero, List.head?_cons]
      rw [usableBefore_awareize hr0 d, awareize_sum]
      by_cases hb : usableBefore r.start d
      · simp [hb]
      · simp only [hb, if_false, Bool.false_eq_true]
        rw [show (rest.map awareize).take 47 = (rest.take 47).map awareize from by
          rw [List.map_take]]
        have hmem : ∀ x ∈ r :: rest.take 47, isZeroEpoch x.start = false := by
          intro x hx
          rcases List.mem_cons.mp hx with h1 | h1
          · subst h1
            exact hr0
          · exact h x (List.mem_cons_of_mem _ (List.take_subset 47 rest h1))
        exact (findBase_awareize d (r :: rest.take 47) hmem).symm

/-- Witness for the amended C7 at a concrete non-zero epoch timestamp. -/
theorem epoch_timestamps_normalized_witness :
    (∀ r ∈ [(⟨PyTime.epoch 3, 5⟩ : StoredRow)], isZeroEpoch r.start = false)
    ∧ hourlyBaseline (rawFetch [⟨PyTime.epoch 3, 5⟩]) 10
        = hourlyBaseline
            (rawFetch ([(⟨PyTime.epoch 3, 5⟩ : StoredRow)].map awareize)) 10 := by
  refine ⟨by decide, ?_⟩
  exact epoch_timestamps_normalized [⟨PyTime.epoch 3, 5⟩] 10 (by decide)

/-! Baseline lookback on a day that already has stored data. -/

theorem findBase_aware_char (d : Int) :
    ∀ (l : Store), List.Pairwise (fun a b => b.time < a.time) l →
      (∃ e ∈ l, e.time < d
        ∧ findBase (l.map fun x => ⟨PyTime.aware x.time, x.sum⟩) d = e.sum
        ∧ ∀ e2 ∈ l, e2.time < d → e2.time ≤ e.time)
      ∨ (findBase (l.map fun x => ⟨PyTime.aware x.time, x.sum⟩) d = 0
        ∧ ∀ e ∈ l, ¬ e.time < d)
  | [], _ => Or.inr ⟨rfl, by simp⟩
  | e :: l, hp => by
      have hu : usableBefore (PyTime.aware e.time) d = decide (e.time < d) := by
        simp [usableBefore, PyTime.coerce, PyTime.truthy, PyTime.val]
      by_cases he : e.time < d
      · refine Or.inl ⟨e, by simp, he, ?_, ?_⟩
        · simp [findBase, hu, he]
        · intro e2 he2 _
          rcases List.mem_cons.mp he2 with h1 | h1
          · exact le_of_eq (congrArg Entry.time h1)
          · exact le_of_lt (List.rel_of_pairwise_cons hp h1)
      · have ih := findBase_aware_char d l (List.Pairwise.of_cons hp)
        have hfb : findBase ((e :: l).map fun x => ⟨PyTime.aware x.time, x.sum⟩) d
            = findBase (l.map fun x => ⟨PyTime.aware x.time, x.sum⟩) d := by
          simp [findBase, hu, he]
        rcases ih with ⟨e1, hm, hlt, hfb1, hmax⟩ | ⟨hfb1, hnone⟩
        · refine Or.inl ⟨e1, List.mem_cons_of_mem _ hm, hlt, by rw [hfb, hfb1], ?_⟩
          intro e2 he2 hlt2
          rcases List.mem_cons.mp he2 with h1 | h1
          · exact absurd (h1 ▸ hlt2) he
          · exact hmax e2 h1 hlt2
        · refine Or.inr ⟨by rw [hfb, hfb1], ?_⟩
          intro e2 he2
          rcases List.mem_cons.mp he2 with h1 | h1
          · exact h1 ▸ he
          · exact hnone e2 h1

/-- C1: when the most recent stored point lies on or after local midnight of
the target day (converted to UTC), the resolver scans up to 48 persisted
points for the latest one strictly before that day start and takes its sum as
the baseline, or 0 when no such point is within the lookback; the first
emitted point then carries that baseline plus the first reading's quantity,
and the chosen baseline point never lies inside the target day. -/
theorem hourly_sameday_baseline_lookback (tz : Tz) (date : LocalDT) (s : Store)
    (e0 : Entry) (r : HourlyRecord) (rs : List HourlyRecord)
    (hinv : StoreInv s) (hhead : s.head? = some e0)
    (hge : as_utc tz (date.repl 0 0) ≤ e0.time) :
    ((∃ e ∈ s.take 48, e.time < as_utc tz (date.repl 0 0)
        ∧ hourlyBaseline (get_last_statistics s) (as_utc tz (date.repl 0 0)) = e.sum
        ∧ ∀ e2 ∈ s.take 48, e2.time < as_utc tz (date.repl 0 0) → e2.time ≤ e.time)
      ∨ (hourlyBaseline (get_last_statistics s) (as_utc tz (date.repl 0 0)) = 0
        ∧ ∀ e ∈ s.take 48, ¬ e.time < as_utc tz (date.repl 0 0)))
    ∧ (hourlyBatch tz s (r :: rs) date).head? =
        some ⟨as_utc tz (date.repl (bucketHourOf r) 0), usageOf r,
          hourlyBaseline (get_last_statistics s) (as_utc tz (date.repl 0 0))
            + usageOf r⟩ := by
  constructor
  · cases s with
    | nil => simp at hhead
    | cons a s2 =>
        simp only [List.head?_cons, Option.some.injEq] at hhead
        subst hhead
        have hred : hourlyBaseline (get_last_statistics (a :: s2))
              (as_utc tz (date.repl 0 0))
            = findBase (get_last_statistics (a :: s2) 48)
              (as_utc tz (date.repl 0 0)) := by
          simp [hourlyBaseline, get_last_statistics, usableBefore, PyTime.coerce,
            PyTime.truthy, PyTime.val, not_lt_of_ge hge]
        rw [hred]
        exact findBase_aware_char (as_utc tz (date.repl 0 0)) ((a :: s2).take 48)
          (hinv.sublist (List.take_sublist 48 (a :: s2)))
  · simp [hourlyBatch, hourlyPoints]

/-- Witness for C1: the stored series has a point inside the target day
(time 100) and a pre-day point (time -50, sum 3); day start is 0. -/
theorem hourly_sameday_baseline_lookback_witness :
    StoreInv [⟨100, 0, 7⟩, ⟨-50, 0, 3⟩]
    ∧ ([(⟨100, 0, 7⟩ : Entry), ⟨-50, 0, 3⟩] : Store).head? = some ⟨100, 0, 7⟩
    ∧ as_utc tz0 (d0.repl 0 0) ≤ (⟨100, 0, 7⟩ : Entry).time
    ∧ (((∃ e ∈ ([⟨100, 0, 7⟩, ⟨-50, 0, 3⟩] : Store).take 48,
          e.time < as_utc tz0 (d0.repl 0 0)
          ∧ hourlyBaseline (get_last_statistics [⟨100, 0, 7⟩, ⟨-50, 0, 3⟩])
              (as_utc tz0 (d0.repl 0 0)) = e.sum
          ∧ ∀ e2 ∈ ([⟨100, 0, 7⟩, ⟨-50, 0, 3⟩] : Store).take 48,
              e2.time < as_utc tz0 (d0.repl 0 0) → e2.time ≤ e.time)
        ∨ (hourlyBaseline (get_last_statistics [⟨100, 0, 7⟩, ⟨-50, 0, 3⟩])
              (as_utc tz0 (d0.repl 0 0)) = 0
          ∧ ∀ e ∈ ([⟨100, 0, 7⟩, ⟨-50, 0, 3⟩] : Store).take 48,
              ¬ e.time < as_utc tz0 (d0.repl 0 0)))
      ∧ (hourlyBatch tz0 [⟨100, 0, 7⟩, ⟨-50, 0, 3⟩] (r1AM :: []) d0).head? =
          some ⟨as_utc tz0 (d0.repl (bucketHourOf r1AM) 0), usageOf r1AM,
            hourlyBaseline (get_last_statistics [⟨100, 0, 7⟩, ⟨-50, 0, 3⟩])
              (as_utc tz0 (d0.repl 0 0)) + usageOf r1AM⟩) := by
  refine ⟨by decide, rfl, by decide, ?_⟩
  exact hourly_sameday_baseline_lookback tz0 d0 [⟨100, 0, 7⟩, ⟨-50, 0, 3⟩]
    ⟨100, 0, 7⟩ r1AM [] (by decide) rfl (by decide)

/-! Store upsert: map view, well-formedness, idempotence. -/

theorem insertPt_mem : ∀ (s : Store) (p : StatisticData) (x : Entry),
    x ∈ insertPt s p → x = ⟨p.start, p.state, p.sum⟩ ∨ x ∈ s
  | [], p, x, hx => by simpa [insertPt] using hx
  | e :: rest, p, x, hx => by
      unfold insertPt at hx
      by_cases h1 : e.time < p.start
      · simp only [if_pos h1] at hx
        rcases List.mem_cons.mp hx with h | h
        · exact Or.inl h
        · exact Or.inr h
      · simp only [if_neg h1] at hx
        by_cases h2 : e.time = p.start
        · simp only [if_pos h2] at hx
          rcases List.mem_cons.mp hx with h | h
          · exact Or.inl h
          · exact Or.inr (List.mem_cons_of_mem _ h)
        · simp only [if_neg h2] at hx
          rcases List.mem_cons.mp hx with h | h
          · exact Or.inr (h ▸ List.mem_cons_self _ _)
          · rcases insertPt_mem rest p x h with h3 | h3
            · exact Or.inl h3
            · exact Or.inr (List.mem_cons_of_mem _ h3)

theorem insertPt_inv : ∀ (s : Store) (p : StatisticData), StoreInv s →
    StoreInv (insertPt s p)
  | [], p, _ => by simp [insertPt, StoreInv]
  | e :: rest, p, hs => by
      have he : ∀ b ∈ rest, b.time < e.time :=
        fun b hb => List.rel_of_pairwise_cons hs hb
      have hrest : StoreInv rest := hs.of_cons
      unfold insertPt
      by_cases h1 : e.time < p.start
      · simp only [if_pos h1]
        refine List.Pairwise.cons ?_ hs
        intro b hb
        rcases List.mem_cons.mp hb with h | h
        · rw [h]
          exact h1
        · exact lt_trans (he b h) h1
      · simp only [if_neg h1]
        by_cases h2 : e.time = p.start
        · simp only [if_pos h2]
          refine List.Pairwise.cons ?_ hrest
          intro b hb
          exact h2 ▸ he b hb
        · simp only [if_neg h2]
          refine List.Pairwise.cons ?_ (insertPt_inv rest p hrest)
          intro b hb
          rcases insertPt_mem rest p b hb with h | h
          · rw [h]
            show p.start < e.time
            have h3 := not_lt.mp h1
            omega
          · exact he b h

theorem upsert_inv : ∀ (pts : List StatisticData) (s : Store), StoreInv s →
    StoreInv (async_add_external_statistics s pts)
  | [], _, hs => hs
  | p :: pts, s, hs => upsert_inv pts (insertPt s p) (insertPt_inv s p hs)

theorem lookupStore_insertPt : ∀ (s : Store) (p : StatisticData) (t : Int),
    lookupStore (insertPt s p) t
      = if p.start = t then some (p.state, p.sum) else lookupStore s t
  | [], p, t => by
      by_cases h : p.start = t <;> simp [insertPt, lookupStore, h]
  | e :: rest, p, t => by
      unfold insertPt
      by_cases h1 : e.time < p.start
      · simp only [if_pos h1]
        by_cases h : p.start = t
        · simp [lookupStore, h]
        · simp only [lookupStore, if_neg h]
      · simp only [if_neg h1]
        by_cases h2 : e.time = p.start
        · simp only [if_pos h2]
          by_cases h : p.start = t
          · simp [lookupStore, h]
          · have h3 : ¬ e.time = t := fun hc => h (h2 ▸ hc)
            simp [lookupStore, h, h3]
        · simp only [if_neg h2]
          by_cases h : p.start = t
          · have h3 : ¬ e.time = t := fun hc => h2 (h ▸ hc)
            simp [lookupStore, h, h3, lookupStore_insertPt rest p t]
          · by_cases h4 : e.time = t
            · simp [lookupStore, h, h4]
            · simp [lookupStore, h, h4, lookupStore_insertPt rest p t]

theorem lookupStore_upsert : ∀ (pts : List StatisticData) (s : Store) (t : Int),
    lookupStore (async_add_external_statistics s pts) t
      = optOr (lastVal pts t) (lookupStore s t)
  | [], s, t => rfl
  | p :: pts, s, t => by
      show lookupStore (async_add_external_statistics (insertPt s p) pts) t = _
      rw [lookupStore_upsert pts (insertPt s p) t, lookupStore_insertPt s p t]
      simp only [lastVal]
      cases lastVal pts t with
      | none => by_cases h : p.start = t <;> simp [optOr, h]
      | some v => simp [optOr]

theorem lookupStore_eq_none : ∀ (l : Store) (t : Int),
    (∀ b ∈ l, b.time ≠ t) → lookupStore l t = Option.none
  | [], _, _ => rfl
  | e :: l, t, h => by
      have h1 : e.time ≠ t := h e (by simp)
      simp [lookupStore, h1, lookupStore_eq_none l t (fun b hb => h b (by simp [hb]))]

theorem store_ext : ∀ (s s2 : Store), StoreInv s → StoreInv s2 →
    (∀ t, lookupStore s t = lookupStore s2 t) → s = s2
  | [], [], _, _, _ => rfl
  | [], e :: s2, _, _, hl => by
      have h := hl e.time
      simp [lookupStore] at h
  | e :: s, [], _, _, hl => by
      have h := hl e.time
      simp [lookupStore] at h
  | e :: s, e2 :: s2, h1, h2, hl => by
      have hx1 : ∀ b ∈ s, b.time < e.time :=
        fun b hb => List.rel_of_pairwise_cons h1 hb
      have hx2 : ∀ b ∈ s2, b.time < e2.time :=
        fun b hb => List.rel_of_pairwise_cons h2 hb
      have heq : e.time = e2.time := by
        rcases lt_trichotomy e.time e2.time with hlt | hq | hgt
        · have h := hl e2.time
          have hnone : lookupStore (e :: s) e2.time = Option.none := by
            apply lookupStore_eq_none
            intro b hb
            rcases List.mem_cons.mp hb with hb1 | hb1
            · rw [hb1]
              omega
            · have := hx1 b hb1
              omega
          rw [hnone] at h
          simp [lookupStore] at h
        · exact hq
        · have h := hl e.time
          have hnone : lookupStore (e2 :: s2) e.time = Option.none := by
            apply lookupStore_eq_none
            intro b hb
            rcases List.mem_cons.mp hb with hb1 | hb1
            · rw [hb1]
              omega
            · have := hx2 b hb1
              omega
          rw [hnone] at h
          simp [lookupStore] at h
      have hhd : e = e2 := by
        have h := hl e.time
        obtain ⟨t1, st1, su1⟩ := e
        obtain ⟨t2, st2, su2⟩ := e2
        simp only at heq
        subst heq
        simp [lookupStore] at h
        simp [h.1, h.2]
      have htail : ∀ t, lookupStore s t = lookupStore s2 t := by
        intro t
        by_cases ht : e.time = t
        · rw [lookupStore_eq_none s t fun b hb => by have := hx1 b hb; omega,
            lookupStore_eq_none s2 t fun b hb => by have := hx2 b hb; rw [← heq] at this; omega]
        · have h := hl t
          have ht2 : ¬ e2.time = t := fun hc => ht (heq ▸ hc)
          simpa [lookupStore, ht, ht2] using h
      rw [hhd, store_ext s s2 h1.of_cons h2.of_cons htail]

theorem upsert_idem (s : Store) (pts : List StatisticData) (hs : StoreInv s) :
    async_add_external_statistics (async_add_external_statistics s pts) pts
      = async_add_external_statistics s pts := by
  apply store_ext _ _ (upsert_inv pts _ (upsert_inv pts s hs)) (upsert_inv pts s hs)
  intro t
  rw [lookupStore_upsert, lookupStore_upsert]
  cases lastVal pts t <;> simp [optOr]

/-! Imported points land on or after the day start, ahead of older history. -/

theorem hourlyPoints_start_ge (tz : Tz) (date : LocalDT) :
    ∀ (rs : List HourlyRecord) (S : ℚ) (p : StatisticData),
      p ∈ hourlyPoints tz date rs S → as_utc tz (date.repl 0 0) ≤ p.start
  | r :: rest, S, p, hp => by
      rcases List.mem_cons.mp hp with h | h
      · rw [h]
        show as_utc tz (date.repl 0 0) ≤ as_utc tz (date.repl (bucketHourOf r) 0)
        simp only [as_utc, LocalDT.repl]
        omega
      · exact hourlyPoints_start_ge tz date rest (S + usageOf r) p h

theorem insertPt_ge_front : ∀ (u s0 : Store) (p : StatisticData) (d : Int),
    (∀ q ∈ s0, q.time < d) → (∀ x ∈ u, d ≤ x.time) → d ≤ p.start →
    ∃ u2 : Store, insertPt (u ++ s0) p = u2 ++ s0 ∧ (∀ x ∈ u2, d ≤ x.time)
      ∧ u2.length ≤ u.length + 1 ∧ u2 ≠ []
  | [], s0, p, d, hs0, _, hp => by
      cases s0 with
      | nil =>
          exact ⟨[⟨p.start, p.state, p.sum⟩], rfl, by simp [hp], by simp, by simp⟩
      | cons a s0x =>
          have ha : a.time < p.start := lt_of_lt_of_le (hs0 a (by simp)) hp
          refine ⟨[⟨p.start, p.state, p.sum⟩], ?_, by simp [hp], by simp, by simp⟩
          simp [insertPt, ha]
  | x :: u, s0, p, d, hs0, hu, hp => by
      have hx : d ≤ x.time := hu x (by simp)
      by_cases h1 : x.time < p.start
      · refine ⟨⟨p.start, p.state, p.sum⟩ :: x :: u, ?_, ?_, by simp, by simp⟩
        · simp [insertPt, h1]
        · intro b hb
          rcases List.mem_cons.mp hb with h | h
          · rw [h]
            exact hp
          · exact hu b h
      · by_cases h2 : x.time = p.start
        · refine ⟨⟨p.start, p.state, p.sum⟩ :: u, ?_, ?_, by simp, by simp⟩
          · simp [insertPt, h1, h2]
          · intro b hb
            rcases List.mem_cons.mp hb with h | h
            · rw [h]
              exact hp
            · exact hu b (by simp [h])
        · obtain ⟨u2, hi, hge, hlen, hne⟩ := insertPt_ge_front u s0 p d hs0
            (fun y hy => hu y (by simp [hy])) hp
          refine ⟨x :: u2, ?_, ?_, by simpa using Nat.add_le_add_right hlen 1, by simp⟩
          · show insertPt ((x :: u) ++ s0) p = (x :: u2) ++ s0
            simp only [List.cons_append, insertPt, if_neg h1, if_neg h2]
            exact congrArg (fun l => x :: l) hi
          · intro b hb
            rcases List.mem_cons.mp hb with h | h
            · rw [h]
              exact hx
            · exact hge b h

theorem upsert_ge_front : ∀ (pts : List StatisticData) (u s0 : Store) (d : Int),
    (∀ q ∈ s0, q.time < d) → (∀ x ∈ u, d ≤ x.time) → (∀ p ∈ pts, d ≤ p.start) →
    ∃ u2 : Store, async_add_external_statistics (u ++ s0) pts = u2 ++ s0
      ∧ (∀ x ∈ u2, d ≤ x.time) ∧ u2.length ≤ u.length + pts.length
      ∧ ((u ≠ [] ∨ pts ≠ []) → u2 ≠ [])
  | [], u, s0, d, hs0, hu, _ =>
      ⟨u, rfl, hu, by simp, fun h => by
        rcases h with h | h
        · exact h
        · exact absurd rfl h⟩
  | p :: pts, u, s0, d, hs0, hu, hp => by
      obtain ⟨u1, hi1, hge1, hlen1, hne1⟩ :=
        insertPt_ge_front u s0 p d hs0 hu (hp p (by simp))
      obtain ⟨u2, hi2, hge2, hlen2, hne2⟩ :=
        upsert_ge_front pts u1 s0 d hs0 hge1 (fun x hx => hp x (by simp [hx]))
      refine ⟨u2, ?_, hge2, ?_, fun _ => hne2 (Or.inl hne1)⟩
      · show async_add_external_statistics (insertPt (u ++ s0) p) pts = u2 ++ s0
        rw [hi1]
        exact hi2
      · simp only [List.length_cons]
        omega

/-! Baseline stability across a same-day re-import. -/

theorem hourlyBaseline_all_before (s : Store) (d : Int)
    (h : ∀ e ∈ s, e.time < d) :
    hourlyBaseline (get_last_statistics s) d
      = match s.head? with
        | Option.none => 0
        | some e => e.sum := by
  cases s with
  | nil => rfl
  | cons a s2 =>
      have ha := h a (by simp)
      simp [hourlyBaseline, get_last_statistics, usableBefore, PyTime.coerce,
        PyTime.truthy, PyTime.val, ha]

theorem findBase_append_skip : ∀ (rows1 rows2 : List StoredRow) (d : Int),
    (∀ r ∈ rows1, usableBefore r.start d = false) →
    findBase (rows1 ++ rows2) d = findBase rows2 d
  | [], rows2, d, _ => rfl
  | r :: rows1, rows2, d, h => by
      simp only [List.cons_append, findBase, h r (by simp), Bool.false_eq_true,
        if_false]
      exact findBase_append_skip rows1 rows2 d (fun x hx => h x (by simp [hx]))

theorem hourlyBaseline_after_import (u s0 : Store) (d : Int)
    (hu : ∀ x ∈ u, d ≤ x.time) (hune : u ≠ []) (hulen : u.length < 48)
    (hs0 : ∀ e ∈ s0, e.time < d) :
    hourlyBaseline (get_last_statistics (u ++ s0)) d
      = match s0.head? with
        | Option.none => 0
        | some e => e.sum := by
  obtain ⟨x, u2, rfl⟩ := List.exists_cons_of_ne_nil hune
  have hx : d ≤ x.time := hu x (by simp)
  have hx2 : usableBefore (PyTime.aware x.time) d = false := by
    simp [usableBefore, PyTime.coerce, PyTime.truthy, PyTime.val]
    omega
  have hred : hourlyBaseline (get_last_statistics ((x :: u2) ++ s0)) d
      = findBase (get_last_statistics ((x :: u2) ++ s0) 48) d := by
    simp only [List.cons_append]
    simp [hourlyBaseline, get_last_statistics, hx2]
  rw [hred]
  have htake : ((x :: u2) ++ s0).take 48
      = (x :: u2) ++ s0.take (48 - (x :: u2).length) := by
    rw [List.take_append_eq_append_take, List.take_of_length_le (le_of_lt hulen)]
  unfold get_last_statistics
  rw [htake, List.map_append]
  rw [findBase_append_skip _ _ d (by
    intro row hrow
    simp only [List.mem_map] at hrow
    obtain ⟨e, he, rfl⟩ := hrow
    have := hu e he
    simp [usableBefore, PyTime.coerce, PyTime.truthy, PyTime.val]
    omega)]
  cases s0 with
  | nil => simp [findBase]
  | cons a s2 =>
      have hk : 48 - (x :: u2).length = (46 - u2.length) + 1 := by
        simp only [List.length_cons] at hulen ⊢
        omega
      rw [hk, List.take_succ_cons]
      have ha := hs0 a (by simp)
      simp [findBase, usableBefore, PyTime.coerce, PyTime.truthy, PyTime.val, ha]

theorem async_import_nonempty_eq (tz : Tz) (s : Store) (r : HourlyRecord)
    (rs : List HourlyRecord) (date : LocalDT) :
    async_import_hourly_statistics tz s (r :: rs) date
      = async_add_external_statistics s (hourlyBatch tz s (r :: rs) date) := by
  unfold async_import_hourly_statistics
  have h : (hourlyBatch tz s (r :: rs) date).isEmpty = false := by
    simp [hourlyBatch, hourlyPoints]
  simp [h]

/-- C2 counterexample: the quarter-hourly importer is not idempotent. Against
an empty store, importing the single reading (hour 0, minute 0, quantity 1)
once stores sum 1 at its timestamp; importing it a second time reads that
stored sum back as the baseline (no day-boundary check) and overwrites the
same timestamp with sum 2, so the final store differs from a single import. -/
theorem quarter_hourly_reimport_not_idempotent :
    async_import_quarter_hourly_statistics tz0
        (async_import_quarter_hourly_statistics tz0 [] [⟨some 0, some 0, some 1⟩] d0)
        [⟨some 0, some 0, some 1⟩] d0
      ≠ async_import_quarter_hourly_statistics tz0 [] [⟨some 0, some 0, some 1⟩] d0 := by
  norm_num [async_import_quarter_hourly_statistics, quarterPoints, naiveBaseline,
    get_last_statistics, async_add_external_statistics, insertPt, as_utc,
    LocalDT.repl, d0, tz0]

/-- C2 (amended): the hourly importer is idempotent under the conditions its
48-point lookback supports — a well-formed store whose points all lie strictly
before the target day start, and fewer than 48 readings: importing the same
(series, day, reading-set) twice against the same initial store state yields a
final store identical to importing it once. (The quarter-hourly and daily
importers baseline from the most recent stored sum unconditionally, so the
same does not hold for them; see the counterexample.) -/
theorem hourly_import_idempotent (tz : Tz) (date : LocalDT) (s : Store)
    (rs : List HourlyRecord) (hinv : StoreInv s)
    (hold : ∀ e ∈ s, e.time < as_utc tz (date.repl 0 0))
    (hlen : rs.length < 48) :
    async_import_hourly_statistics tz
        (async_import_hourly_statistics tz s rs date) rs date
      = async_import_hourly_statistics tz s rs date := by
  cases rs with
  | nil => rfl
  | cons r rs2 =>
      have hptsne : hourlyBatch tz s (r :: rs2) date ≠ [] := by
        simp [hourlyBatch, hourlyPoints]
      have h1 := async_import_nonempty_eq tz s r rs2 date
      have hge : ∀ p ∈ hourlyBatch tz s (r :: rs2) date,
          as_utc tz (date.repl 0 0) ≤ p.start :=
        fun p hp => hourlyPoints_start_ge tz date _ _ p hp
      obtain ⟨u, hu_eq, hu_ge, hu_len, hu_ne⟩ :=
        upsert_ge_front (hourlyBatch tz s (r :: rs2) date) [] s
          (as_utc tz (date.repl 0 0)) hold (by simp) hge
      rw [List.nil_append] at hu_eq
      have hu_ne2 : u ≠ [] := hu_ne (Or.inr hptsne)
      have hu_len2 : u.length < 48 := by
        have hlb : (hourlyBatch tz s (r :: rs2) date).length = (r :: rs2).length := by
          simp [hourlyBatch, hourlyPoints_length]
        simp only [List.length_nil, Nat.zero_add] at hu_len
        omega
      have hb2 : hourlyBaseline (get_last_statistics (u ++ s))
            (as_utc tz (date.repl 0 0))
          = hourlyBaseline (get_last_statistics s) (as_utc tz (date.repl 0 0)) := by
        rw [hourlyBaseline_after_import u s _ hu_ge hu_ne2 hu_len2 hold,
          hourlyBaseline_all_before s _ hold]
      have hbatch2 : hourlyBatch tz (u ++ s) (r :: rs2) date
          = hourlyBatch tz s (r :: rs2) date :=
        congrArg (hourlyPoints tz date (r :: rs2)) hb2
      rw [h1, hu_eq, async_import_nonempty_eq tz (u ++ s) r rs2 date, hbatch2,
        ← hu_eq]
      exact upsert_idem s _ hinv

/-- Witness for the amended C2: one pre-day stored point, one reading. -/
theorem hourly_import_idempotent_witness :
    StoreInv [⟨-10, 1, 5⟩]
    ∧ (∀ e ∈ ([⟨-10, 1, 5⟩] : Store), e.time < as_utc tz0 (d0.repl 0 0))
    ∧ ([r1AM] : List HourlyRecord).length < 48
    ∧ async_import_hourly_statistics tz0
        (async_import_hourly_statistics tz0 [⟨-10, 1, 5⟩] [r1AM] d0) [r1AM] d0
      = async_import_hourly_statistics tz0 [⟨-10, 1, 5⟩] [r1AM] d0 := by
  refine ⟨by decide, by decide, by decide, ?_⟩
  exact hourly_import_idempotent tz0 d0 [⟨-10, 1, 5⟩] [r1AM] (by decide)
    (by decide) (by decide)

end ACWD
